import Mathlib

/-!
Verification of the fairness-metric / reweighing / split computational core
described by the specification of the `ensure-loan-fairness-aif360`
repository.  The repository itself is a notebook that calls the external
`aif360` library (`BinaryLabelDatasetMetric.mean_difference`,
`Reweighing.fit_transform`, `GermanDataset.split`); the bodies of those
operations are not part of the repository, so the definitions below are
modelled from the specification's own algorithmic description, using exact
rational arithmetic for the weight masses.
-/

namespace LoanFairness

/-- Modelled from the spec: an instance holds a feature vector, a binary
label (`favorable = true` means the favorable outcome), a protected-group
flag (`privileged = true` means the privileged group), and a mutable
instance weight (a mass, default 1.0). -/
structure Instance where
  features : List Rat
  privileged : Bool
  favorable : Bool
  weight : Rat
deriving DecidableEq, Repr, Inhabited

/-- Modelled from the spec: a Dataset is an ordered collection of instances. -/
abbrev Dataset := List Instance

/-- Total weight mass W(*, *) of a dataset. -/
def totalWeight (D : Dataset) : Rat :=
  (D.map Instance.weight).sum

/-- Group weight mass W(g, *): sum of instance weights in group `g`. -/
def groupWeight (g : Bool) (D : Dataset) : Rat :=
  ((D.filter fun x => x.privileged == g).map Instance.weight).sum

/-- Label weight mass W(*, l): sum of instance weights with label `l`. -/
def labelWeight (l : Bool) (D : Dataset) : Rat :=
  ((D.filter fun x => x.favorable == l).map Instance.weight).sum

/-- Cell weight mass W(g, l): sum of instance weights in group `g` with
label `l`. -/
def cellWeight (g l : Bool) (D : Dataset) : Rat :=
  ((D.filter fun x => x.privileged == g && x.favorable == l).map Instance.weight).sum

/-- Modelled from the spec: error raised by the fairness metric when a
requested group has zero total weight. -/
inductive MetricError where
  | EmptyGroup
deriving DecidableEq, Repr

/-- Modelled from the spec (the body of aif360's
`BinaryLabelDatasetMetric.mean_difference` is not in the repository):
mean_difference = P(favorable | unprivileged) − P(favorable | privileged),
where P(favorable | G) is the favorable weight mass of G divided by the
total weight mass of G; fails with `EmptyGroup` when either group has zero
total weight. -/
def mean_difference (D : Dataset) : Except MetricError Rat :=
  if groupWeight false D = 0 ∨ groupWeight true D = 0 then
    .error .EmptyGroup
  else
    .ok (cellWeight false true D / groupWeight false D
          - cellWeight true true D / groupWeight true D)

/-- Modelled from the spec: error raised by reweighing when a (group, label)
cell has zero observed weight mass. -/
inductive ReweighError where
  | DegenerateDistribution
deriving DecidableEq, Repr

/-- Reweighing cell factor: expected(g, l) / W(g, l) where
expected(g, l) = W(g, *) × W(*, l) / W(*, *). -/
def cellFactor (g l : Bool) (D : Dataset) : Rat :=
  groupWeight g D * labelWeight l D / totalWeight D / cellWeight g l D

/-- Modelled from the spec (the body of aif360's `Reweighing.fit` is not in
the repository): computes the four cell factors of the classical reweighing
scheme, failing with `DegenerateDistribution` when any of the four
(group, label) cells has zero observed weight mass. -/
def fit (D : Dataset) : Except ReweighError (Bool → Bool → Rat) :=
  if cellWeight false false D = 0 ∨ cellWeight false true D = 0 ∨
      cellWeight true false D = 0 ∨ cellWeight true true D = 0 then
    .error .DegenerateDistribution
  else
    .ok fun g l => cellFactor g l D

/-- Modelled from the spec: applying fitted cell factors multiplies each
instance's weight by the factor of its (group, label) cell; features and
labels are untouched. -/
def transform (c : Bool → Bool → Rat) (D : Dataset) : Dataset :=
  D.map fun x => { x with weight := x.weight * c x.privileged x.favorable }

/-- Modelled from the spec (aif360's `Reweighing.fit_transform`): fit the
four cell factors on `D` and apply them to `D`. -/
def fit_transform (D : Dataset) : Except ReweighError Dataset :=
  (fit D).map fun c => transform c D

/-- Modelled from the spec: errors of the train/test split. -/
inductive SplitError where
  | InvalidSplitFraction
  | TooFewInstances
deriving DecidableEq, Repr

/-- A 64-bit linear congruential step driving the seeded pseudo-random
permutation of the split. -/
def lcgNext (s : Nat) : Nat :=
  (6364136223846793005 * s + 1442695040888963407) % 18446744073709551616

/-- Fisher-Yates style draw loop of the seeded shuffle: repeatedly draws the
pseudo-randomly selected element of `rest` onto `acc`. -/
def shuffleAux : Nat → Nat → Dataset → Dataset → Dataset
  | 0, _, acc, rest => acc ++ rest
  | _ + 1, _, acc, [] => acc
  | fuel + 1, s, acc, x :: xs =>
      let i := s % (x :: xs).length
      shuffleAux fuel (lcgNext s) ((x :: xs).getD i x :: acc) ((x :: xs).eraseIdx i)

/-- Modelled from the spec: a seeded pseudo-random permutation of the
dataset, deterministic in the seed. -/
def shuffle (seed : Nat) (D : Dataset) : Dataset :=
  shuffleAux D.length seed [] D

/-- Size of the first partition of a split: round(N × f). -/
def firstSize (n : Nat) (f : Rat) : Nat :=
  (round ((n : Rat) * f)).toNat

/-- Modelled from the spec (the body of aif360's `split` is not in the
repository): partition the dataset at fraction `f`, optionally after a
seeded pseudo-random shuffle; fails when the fraction is outside (0,1) or
the dataset has fewer than 2 instances. -/
def split (f : Rat) (doShuffle : Bool) (seed : Nat) (D : Dataset) :
    Except SplitError (Dataset × Dataset) :=
  if ¬ (0 < f ∧ f < 1) then
    .error .InvalidSplitFraction
  else if D.length < 2 then
    .error .TooFewInstances
  else
    let xs := if doShuffle then shuffle seed D else D
    let k := firstSize D.length f
    .ok (xs.take k, xs.drop k)

/-- Splitting a weight sum over a filter by a further boolean condition on
the right of the conjunction. -/
lemma sum_filter_split (p r : Instance → Bool) (D : Dataset) :
    ((D.filter p).map Instance.weight).sum
      = ((D.filter fun x => p x && r x).map Instance.weight).sum
        + ((D.filter fun x => p x && !(r x)).map Instance.weight).sum := by
  induction D with
  | nil => simp
  | cons x xs ih =>
      simp only [List.filter_cons]
      cases hp : p x <;> cases hr : r x <;> simp [hp, hr, ih] <;> ring

/-- Splitting a weight sum over a filter by a further boolean condition on
the left of the conjunction. -/
lemma sum_filter_split2 (p r : Instance → Bool) (D : Dataset) :
    ((D.filter p).map Instance.weight).sum
      = ((D.filter fun x => r x && p x).map Instance.weight).sum
        + ((D.filter fun x => !(r x) && p x).map Instance.weight).sum := by
  induction D with
  | nil => simp
  | cons x xs ih =>
      simp only [List.filter_cons]
      cases hp : p x <;> cases hr : r x <;> simp [hp, hr, ih] <;> ring

/-- A group's weight mass is the sum of its two cell masses. -/
lemma groupWeight_eq_cells (g : Bool) (D : Dataset) :
    groupWeight g D = cellWeight g true D + cellWeight g false D := by
  simp only [groupWeight, cellWeight, beq_true, beq_false]
  exact sum_filter_split (fun x => x.privileged == g) (fun x => x.favorable) D

/-- A label's weight mass is the sum of its two cell masses. -/
lemma labelWeight_eq_cells (l : Bool) (D : Dataset) :
    labelWeight l D = cellWeight false l D + cellWeight true l D := by
  simp only [labelWeight, cellWeight, beq_true, beq_false]
  rw [sum_filter_split2 (fun x => x.favorable == l) (fun x => x.privileged) D, add_comm]

/-- The total weight mass is the sum of the two group masses. -/
lemma totalWeight_eq_groups (D : Dataset) :
    totalWeight D = groupWeight false D + groupWeight true D := by
  simp only [totalWeight, groupWeight, beq_true, beq_false]
  have h := sum_filter_split2 (fun _ => true) (fun x => x.privileged) D
  simp only [Bool.and_true, List.filter_true] at h
  rw [h, add_comm]

/-- Transforming scales each cell's mass by that cell's factor. -/
lemma cellWeight_transform (c : Bool → Bool → Rat) (g l : Bool) (D : Dataset) :
    cellWeight g l (transform c D) = c g l * cellWeight g l D := by
  induction D with
  | nil => simp [cellWeight, transform]
  | cons x xs ih =>
      simp only [cellWeight, transform, List.map_cons, List.filter_cons] at *
      by_cases hp : x.privileged = g
      · by_cases hf : x.favorable = l
        · simp [hp, hf, ih, cellWeight, transform]; ring
        · simp [hp, hf, ih, cellWeight, transform]
      · simp [hp, ih, cellWeight, transform]

/-- Cell masses are nonnegative when every instance weight is nonnegative. -/
lemma cellWeight_nonneg (g l : Bool) (D : Dataset)
    (hw : ∀ x ∈ D, 0 ≤ x.weight) : 0 ≤ cellWeight g l D := by
  induction D with
  | nil => simp [cellWeight]
  | cons x xs ih =>
      have hx := hw x (by simp)
      have ih' := ih fun y hy => hw y (by simp [hy])
      simp only [cellWeight, List.filter_cons] at *
      by_cases h : (x.privileged == g && x.favorable == l) = true
      · simp [h]; positivity
      · simp [h]; exact ih'

/-- Drawing the element at a valid index and erasing it yields a
permutation of the list. -/
lemma perm_getD_cons_eraseIdx (d : Instance) :
    ∀ (l : Dataset) (i : Nat), i < l.length → l.Perm (l.getD i d :: l.eraseIdx i)
  | [], i, h => by simp at h
  | a :: l, 0, _ => by simp
  | a :: l, i + 1, h => by
      have h' : i < l.length := by simpa using h
      have ih := perm_getD_cons_eraseIdx d l i h'
      simp only [List.getD_cons_succ, List.eraseIdx_cons_succ]
      exact (ih.cons a).trans (List.Perm.swap _ _ _)

/-- The shuffle draw loop permutes `acc ++ rest`. -/
lemma shuffleAux_perm : ∀ (fuel s : Nat) (acc rest : Dataset),
    (shuffleAux fuel s acc rest).Perm (acc ++ rest)
  | 0, _, _, _ => .refl _
  | _ + 1, _, acc, [] => by simp [shuffleAux]
  | fuel + 1, s, acc, x :: xs => by
      have hlen : s % (x :: xs).length < (x :: xs).length :=
        Nat.mod_lt _ (by simp)
      have ih := shuffleAux_perm fuel (lcgNext s)
        ((x :: xs).getD (s % (x :: xs).length) x :: acc)
        ((x :: xs).eraseIdx (s % (x :: xs).length))
      have hdraw := perm_getD_cons_eraseIdx x (x :: xs) (s % (x :: xs).length) hlen
      show (shuffleAux fuel (lcgNext s)
        ((x :: xs).getD (s % (x :: xs).length) x :: acc)
        ((x :: xs).eraseIdx (s % (x :: xs).length))).Perm (acc ++ x :: xs)
      refine ih.trans ?_
      rw [List.cons_append]
      exact List.Perm.trans List.perm_middle.symm (List.Perm.append_left acc hdraw.symm)

/-- Shuffling is a permutation of the dataset. -/
lemma shuffle_perm (seed : Nat) (D : Dataset) : (shuffle seed D).Perm D := by
  simpa [shuffle] using shuffleAux_perm D.length seed [] D

/-- A balanced example dataset: one unit-weight instance in each of the
four (group, label) cells. -/
def exampleBalanced : Dataset :=
  [⟨[], true, true, 1⟩, ⟨[], true, false, 1⟩, ⟨[], false, true, 1⟩, ⟨[], false, false, 1⟩]

/-- A biased example dataset: the privileged group has favorable mass 2
against unfavorable mass 1, the unprivileged group the reverse. -/
def exampleBiased : Dataset :=
  [⟨[], true, true, 2⟩, ⟨[], true, false, 1⟩, ⟨[], false, true, 1⟩, ⟨[], false, false, 2⟩]

/-- C1: whenever both groups have nonzero total weight, the fairness metric
returns P(favorable | unprivileged) − P(favorable | privileged), where
P(favorable | G) is the sum of instance weights with favorable label in G
divided by the sum of all instance weights in G. -/
theorem mean_difference_formula (D : Dataset)
    (hu : ((D.filter fun x => x.privileged == false).map Instance.weight).sum ≠ 0)
    (hp : ((D.filter fun x => x.privileged == true).map Instance.weight).sum ≠ 0) :
    mean_difference D = .ok
      (((D.filter fun x => x.privileged == false && x.favorable == true).map
            Instance.weight).sum
          / ((D.filter fun x => x.privileged == false).map Instance.weight).sum
        - ((D.filter fun x => x.privileged == true && x.favorable == true).map
            Instance.weight).sum
          / ((D.filter fun x => x.privileged == true).map Instance.weight).sum) := by
  have h1 : groupWeight false D ≠ 0 := hu
  have h2 : groupWeight true D ≠ 0 := hp
  unfold mean_difference
  rw [if_neg (by push_neg; exact ⟨h1, h2⟩)]
  rfl

/-- Witness for C1: the metric formula evaluated on the biased example,
giving favorable rates 1/3 and 2/3 and mean difference −1/3. -/
theorem mean_difference_formula_witness :
    mean_difference exampleBiased = .ok (1/3 - 2/3) := by
  have h := mean_difference_formula exampleBiased
    (by norm_num [exampleBiased]) (by norm_num [exampleBiased])
  rw [h]
  norm_num [exampleBiased]

/-- C5: the fairness metric fails with `EmptyGroup` exactly when the
unprivileged or the privileged group has zero total weight; in every other
case the `if` falls through to the `.ok` value, so the error is never
replaced by a silent default. -/
theorem mean_difference_error_iff (D : Dataset) :
    mean_difference D = .error .EmptyGroup ↔
      (groupWeight false D = 0 ∨ groupWeight true D = 0) := by
  unfold mean_difference
  by_cases h : groupWeight false D = 0 ∨ groupWeight true D = 0 <;> simp [h]

/-- Witness for C5: the empty dataset makes both groups empty and the
metric reports `EmptyGroup`. -/
theorem mean_difference_error_iff_witness :
    mean_difference [] = Except.error MetricError.EmptyGroup :=
  (mean_difference_error_iff []).mpr (Or.inl (by norm_num [groupWeight]))

/-- C6: reweighing's `fit` fails with `DegenerateDistribution` exactly when
one of the four (group, label) cells has zero observed weight mass; in every
other case it returns the cell factors, so no fallback weight is ever
substituted. -/
theorem fit_error_iff (D : Dataset) :
    fit D = .error .DegenerateDistribution ↔
      (cellWeight false false D = 0 ∨ cellWeight false true D = 0 ∨
        cellWeight true false D = 0 ∨ cellWeight true true D = 0) := by
  unfold fit
  by_cases h : cellWeight false false D = 0 ∨ cellWeight false true D = 0 ∨
      cellWeight true false D = 0 ∨ cellWeight true true D = 0 <;> simp [h]

/-- Witness for C6: a dataset whose unprivileged-unfavorable cell is empty
makes `fit` report `DegenerateDistribution`. -/
theorem fit_error_iff_witness :
    fit [⟨[], true, true, 1⟩, ⟨[], true, false, 1⟩, ⟨[], false, true, 1⟩]
      = Except.error ReweighError.DegenerateDistribution :=
  (fit_error_iff _).mpr (Or.inl (by norm_num [cellWeight]))

/-- C7: the reweighing transform changes only instance weights: it
preserves the dataset's length and every position's features, label and
group flag (`fit` itself is a pure function of the dataset and returns only
the factors, leaving the dataset untouched). -/
theorem transform_preserves_features_labels (c : Bool → Bool → Rat)
    (D : Dataset) (i : Nat) :
    (transform c D).length = D.length ∧
    ((transform c D).getD i default).features = (D.getD i default).features ∧
    ((transform c D).getD i default).favorable = (D.getD i default).favorable ∧
    ((transform c D).getD i default).privileged = (D.getD i default).privileged := by
  refine ⟨by simp [transform], ?_, ?_, ?_⟩ <;>
  · simp only [transform, List.getD_eq_getElem?_getD, List.getElem?_map]
    cases h : D[i]? <;> simp

/-- Transforming with the fitted factors sets each cell's mass to the
expected mass W(g,*)·W(*,l)/W(*,*), provided the cell was nonempty. -/
lemma cellWeight_transform_fit (g l : Bool) (D : Dataset)
    (hgl : cellWeight g l D ≠ 0) :
    cellWeight g l (transform (fun a b => cellFactor a b D) D)
      = groupWeight g D * labelWeight l D / totalWeight D := by
  rw [cellWeight_transform]
  unfold cellFactor
  exact div_mul_cancel₀ _ hgl

/-- The two label masses add up to the total mass. -/
lemma labelWeight_add_labelWeight (D : Dataset) :
    labelWeight true D + labelWeight false D = totalWeight D := by
  rw [labelWeight_eq_cells, labelWeight_eq_cells, totalWeight_eq_groups,
    groupWeight_eq_cells, groupWeight_eq_cells]
  ring

/-- Transforming with the fitted factors preserves the group's weight mass,
provided the group's two cells are nonempty and the total mass is nonzero. -/
lemma groupWeight_transform_fit (g : Bool) (D : Dataset)
    (hT : totalWeight D ≠ 0)
    (ht : cellWeight g true D ≠ 0) (hf : cellWeight g false D ≠ 0) :
    groupWeight g (transform (fun a b => cellFactor a b D) D) = groupWeight g D := by
  rw [groupWeight_eq_cells, cellWeight_transform_fit g true D ht,
    cellWeight_transform_fit g false D hf, div_add_div_same, ← mul_add,
    labelWeight_add_labelWeight, mul_div_assoc, div_self hT, mul_one]

/-- Fitting succeeds with the cell-factor function whenever all four cells
have nonzero mass. -/
lemma fit_ok (D : Dataset)
    (h00 : cellWeight false false D ≠ 0) (h01 : cellWeight false true D ≠ 0)
    (h10 : cellWeight true false D ≠ 0) (h11 : cellWeight true true D ≠ 0) :
    fit D = .ok fun g l => cellFactor g l D := by
  unfold fit
  rw [if_neg (by push_neg; exact ⟨h00, h01, h10, h11⟩)]

/-- C3: when every (group, label) cell has nonzero weight mass, the fitted
transform assigns each instance in cell (g, l) the new weight
original × [W(g,*) × W(*,l) / W(*,*)] / W(g,l). -/
theorem transform_weight_formula (D : Dataset) (c : Bool → Bool → Rat)
    (hc : fit D = .ok c) (i : Nat) (hi : i < D.length) :
    ((transform c D).getD i default).weight
      = (D.getD i default).weight
        * (groupWeight (D.getD i default).privileged D
            * labelWeight (D.getD i default).favorable D
            / totalWeight D
            / cellWeight (D.getD i default).privileged (D.getD i default).favorable D) := by
  have hcfun : c = fun g l => cellFactor g l D := by
    unfold fit at hc
    by_cases h : cellWeight false false D = 0 ∨ cellWeight false true D = 0 ∨
        cellWeight true false D = 0 ∨ cellWeight true true D = 0
    · rw [if_pos h] at hc; cases hc
    · rw [if_neg h] at hc
      injection hc with h'
      exact h'.symm
  subst hcfun
  simp [transform, List.getD_eq_getElem?_getD, List.getElem?_map,
    List.getElem?_eq_getElem hi, cellFactor]

/-- Witness for C3: on the balanced example every factor is 1 and the first
instance keeps weight 1 × (2 × 2 / 4 / 1). -/
theorem transform_weight_formula_witness :
    ((transform (fun g l => cellFactor g l exampleBalanced)
        exampleBalanced).getD 0 default).weight
      = ((exampleBalanced.getD 0 default).weight
        * (groupWeight (exampleBalanced.getD 0 default).privileged exampleBalanced
            * labelWeight (exampleBalanced.getD 0 default).favorable exampleBalanced
            / totalWeight exampleBalanced
            / cellWeight (exampleBalanced.getD 0 default).privileged
                (exampleBalanced.getD 0 default).favorable exampleBalanced)) :=
  transform_weight_formula exampleBalanced _
    (fit_ok exampleBalanced (by norm_num [cellWeight, exampleBalanced])
      (by norm_num [cellWeight, exampleBalanced])
      (by norm_num [cellWeight, exampleBalanced])
      (by norm_num [cellWeight, exampleBalanced]))
    0 (by norm_num [exampleBalanced])

/-- C4: with nonnegative instance weights and every cell of nonzero mass
(the condition under which `fit` succeeds), the fitted transform preserves
each group's total weight mass and hence the dataset's total weight mass,
exactly in rational arithmetic. -/
theorem transform_preserves_total_weight (D : Dataset) (c : Bool → Bool → Rat)
    (hw : ∀ x ∈ D, 0 ≤ x.weight) (hc : fit D = .ok c) :
    (∀ g, groupWeight g (transform c D) = groupWeight g D) ∧
    totalWeight (transform c D) = totalWeight D := by
  have hcells : ¬ (cellWeight false false D = 0 ∨ cellWeight false true D = 0 ∨
      cellWeight true false D = 0 ∨ cellWeight true true D = 0) := by
    intro h
    unfold fit at hc
    rw [if_pos h] at hc
    cases hc
  push_neg at hcells
  obtain ⟨h00, h01, h10, h11⟩ := hcells
  have hcfun : c = fun g l => cellFactor g l D := by
    have h := (fit_ok D h00 h01 h10 h11).symm.trans hc
    injection h with h'
    exact h'.symm
  have p00 := lt_of_le_of_ne (cellWeight_nonneg false false D hw) (Ne.symm h00)
  have p01 := lt_of_le_of_ne (cellWeight_nonneg false true D hw) (Ne.symm h01)
  have p10 := lt_of_le_of_ne (cellWeight_nonneg true false D hw) (Ne.symm h10)
  have p11 := lt_of_le_of_ne (cellWeight_nonneg true true D hw) (Ne.symm h11)
  have hT : totalWeight D ≠ 0 := by
    rw [totalWeight_eq_groups, groupWeight_eq_cells, groupWeight_eq_cells]
    positivity
  subst hcfun
  have hgroup : ∀ g, groupWeight g
      (transform (fun a b => cellFactor a b D) D) = groupWeight g D := by
    intro g
    cases g with
    | false => exact groupWeight_transform_fit false D hT h01 h00
    | true => exact groupWeight_transform_fit true D hT h11 h10
  refine ⟨hgroup, ?_⟩
  rw [totalWeight_eq_groups, totalWeight_eq_groups, hgroup false, hgroup true]

/-- Witness for C4: the fitted transform on the biased example keeps both
group masses (3 each) and the total mass (6). -/
theorem transform_preserves_total_weight_witness :
    (∀ g, groupWeight g
        (transform (fun g l => cellFactor g l exampleBiased) exampleBiased)
      = groupWeight g exampleBiased) ∧
    totalWeight (transform (fun g l => cellFactor g l exampleBiased) exampleBiased)
      = totalWeight exampleBiased :=
  transform_preserves_total_weight exampleBiased _
    (fun x hx => by
      simp only [exampleBiased, List.mem_cons, List.not_mem_nil, or_false] at hx
      rcases hx with h | h | h | h <;> subst h <;> norm_num)
    (fit_ok exampleBiased (by norm_num [cellWeight, exampleBiased])
      (by norm_num [cellWeight, exampleBiased])
      (by norm_num [cellWeight, exampleBiased])
      (by norm_num [cellWeight, exampleBiased]))

/-- C2: with nonnegative instance weights, whenever all four (group, label)
cells have nonzero mass, fitting and applying reweighing yields a dataset
whose mean difference is exactly 0, in particular within the 1e-9
tolerance. -/
theorem mean_difference_after_reweighing (D : Dataset)
    (hw : ∀ x ∈ D, 0 ≤ x.weight)
    (h00 : cellWeight false false D ≠ 0) (h01 : cellWeight false true D ≠ 0)
    (h10 : cellWeight true false D ≠ 0) (h11 : cellWeight true true D ≠ 0) :
    ∃ D', fit_transform D = .ok D' ∧
      ∃ r, mean_difference D' = .ok r ∧ |r| < 1 / 1000000000 := by
  have hfit := fit_ok D h00 h01 h10 h11
  have p00 := lt_of_le_of_ne (cellWeight_nonneg false false D hw) (Ne.symm h00)
  have p01 := lt_of_le_of_ne (cellWeight_nonneg false true D hw) (Ne.symm h01)
  have p10 := lt_of_le_of_ne (cellWeight_nonneg true false D hw) (Ne.symm h10)
  have p11 := lt_of_le_of_ne (cellWeight_nonneg true true D hw) (Ne.symm h11)
  have hWf : groupWeight false D ≠ 0 := by
    rw [groupWeight_eq_cells]; positivity
  have hWt : groupWeight true D ≠ 0 := by
    rw [groupWeight_eq_cells]; positivity
  have hT : totalWeight D ≠ 0 := by
    rw [totalWeight_eq_groups, groupWeight_eq_cells, groupWeight_eq_cells]
    positivity
  have hgf := groupWeight_transform_fit false D hT h01 h00
  have hgt := groupWeight_transform_fit true D hT h11 h10
  refine ⟨transform (fun a b => cellFactor a b D) D,
    by simp [fit_transform, hfit, Except.map], 0, ?_, by norm_num⟩
  unfold mean_difference
  rw [if_neg (by push_neg; exact ⟨by rw [hgf]; exact hWf, by rw [hgt]; exact hWt⟩)]
  rw [hgf, hgt, cellWeight_transform_fit false true D h01,
    cellWeight_transform_fit true true D h11]
  congr 1
  field_simp
  ring

/-- Witness for C2: fitting and applying reweighing to the biased example
yields mean difference exactly 0. -/
theorem mean_difference_after_reweighing_witness :
    ∃ D', fit_transform exampleBiased = .ok D' ∧
      ∃ r, mean_difference D' = .ok r ∧ |r| < 1 / 1000000000 :=
  mean_difference_after_reweighing exampleBiased
    (fun x hx => by
      simp only [exampleBiased, List.mem_cons, List.not_mem_nil, or_false] at hx
      rcases hx with h | h | h | h <;> subst h <;> norm_num)
    (by norm_num [cellWeight, exampleBiased]) (by norm_num [cellWeight, exampleBiased])
    (by norm_num [cellWeight, exampleBiased]) (by norm_num [cellWeight, exampleBiased])

/-- C8: applying fixed fitted cell factors is a pure function, so two
applications to the original un-reweighted dataset give the same output;
but applying the same fitted factors to the already-reweighted dataset is
not the same as applying them once: the biased example is double-corrected. -/
theorem transform_idempotent_only_on_original :
    (∀ (c : Bool → Bool → Rat) (D : Dataset), transform c D = transform c D) ∧
    ∃ (D : Dataset) (c : Bool → Bool → Rat), fit D = .ok c ∧
      transform c (transform c D) ≠ transform c D := by
  refine ⟨fun _ _ => rfl, exampleBiased, fun g l => cellFactor g l exampleBiased,
    fit_ok exampleBiased (by norm_num [cellWeight, exampleBiased])
      (by norm_num [cellWeight, exampleBiased])
      (by norm_num [cellWeight, exampleBiased])
      (by norm_num [cellWeight, exampleBiased]), ?_⟩
  norm_num [transform, exampleBiased, cellFactor, cellWeight, groupWeight,
    labelWeight, totalWeight]

/-- Characterization of a successful split: both partitions come from the
(possibly shuffled) dataset by take and drop at round(N·f). -/
lemma split_ok (f : Rat) (sh : Bool) (seed : Nat) (D : Dataset)
    (h0 : 0 < f) (h1 : f < 1) (hN : 2 ≤ D.length) :
    split f sh seed D =
      .ok ((if sh then shuffle seed D else D).take (firstSize D.length f),
        (if sh then shuffle seed D else D).drop (firstSize D.length f)) := by
  unfold split
  rw [if_neg (not_not_intro ⟨h0, h1⟩), if_neg (by omega)]

/-- The size of the first partition never exceeds the dataset size when the
fraction is below 1. -/
lemma firstSize_le (n : Nat) (f : Rat) (h0 : 0 < f) (h1 : f < 1) (hn : 1 ≤ n) :
    firstSize n f ≤ n := by
  unfold firstSize
  rw [round_eq]
  have hnq : (1 : Rat) ≤ (n : Rat) := by exact_mod_cast hn
  have hx : (n : Rat) * f + 1 / 2 < (n : Rat) + 1 := by nlinarith
  have hfl : ⌊(n : Rat) * f + 1 / 2⌋ < (n : ℤ) + 1 := by
    rw [Int.floor_lt]
    push_cast
    exact hx
  exact Int.toNat_le.mpr (by omega)

/-- C9: for a dataset of at least 2 instances and a fraction in (0,1), the
unshuffled split succeeds with a first partition of size round(N·f) and a
second of size N − round(N·f), and the shuffled split with a fixed seed
yields the same partition on every run. -/
theorem split_sizes (D : Dataset) (f : Rat) (seed : Nat)
    (hN : 2 ≤ D.length) (h0 : 0 < f) (h1 : f < 1) :
    (∃ a b, split f false seed D = .ok (a, b) ∧
      a.length = (round ((D.length : Rat) * f)).toNat ∧
      b.length = D.length - (round ((D.length : Rat) * f)).toNat) ∧
    split f true seed D = split f true seed D := by
  refine ⟨⟨D.take (firstSize D.length f), D.drop (firstSize D.length f),
    ?_, ?_, ?_⟩, rfl⟩
  · simpa using split_ok f false seed D h0 h1 hN
  · have hk := firstSize_le D.length f h0 h1 (by omega)
    show (D.take (firstSize D.length f)).length = firstSize D.length f
    rw [List.length_take]
    exact Nat.min_eq_left hk
  · show (D.drop (firstSize D.length f)).length = D.length - firstSize D.length f
    exact List.length_drop _ _

/-- Witness for C9: the biased example of size 4 splits at fraction 7/10
into partitions of sizes round(2.8) = 3 and 1. -/
theorem split_sizes_witness :
    2 ≤ exampleBiased.length ∧
    ((∃ a b, split (7/10) false 0 exampleBiased = .ok (a, b) ∧
        a.length = (round ((exampleBiased.length : Rat) * (7/10))).toNat ∧
        b.length = exampleBiased.length
          - (round ((exampleBiased.length : Rat) * (7/10))).toNat) ∧
      split (7/10) true 0 exampleBiased = split (7/10) true 0 exampleBiased) :=
  ⟨by norm_num [exampleBiased],
    split_sizes exampleBiased (7/10) 0 (by norm_num [exampleBiased])
      (by norm_num) (by norm_num)⟩

/-- C10: a successful split partitions the dataset: the concatenation of
the two partitions is a permutation of the input (so the partitions are
disjoint as an occurrence partition), and instances are moved whole, so
every instance of either partition is an instance of the source with its
original features, label and weight; no weight is re-initialized. -/
theorem split_partition (f : Rat) (sh : Bool) (seed : Nat) (D a b : Dataset)
    (h : split f sh seed D = .ok (a, b)) :
    (a ++ b).Perm D ∧ ∀ x : Instance, x ∈ a ++ b → x ∈ D := by
  have hperm : (a ++ b).Perm D := by
    by_cases h0 : 0 < f ∧ f < 1
    · by_cases hN : D.length < 2
      · rw [split, if_neg (not_not_intro h0), if_pos hN] at h
        cases h
      · rw [split_ok f sh seed D h0.1 h0.2 (by omega)] at h
        injection h with h'
        injection h' with ha hb
        subst ha
        subst hb
        rw [List.take_append_drop]
        cases sh with
        | false => simp
        | true => simpa using shuffle_perm seed D
    · rw [split, if_pos h0] at h
      cases h
  exact ⟨hperm, fun x hx => hperm.mem_iff.mp hx⟩

/-- Witness for C10: splitting the biased example at one half without
shuffling gives two halves whose concatenation permutes the input and whose
instances all come from the input. -/
theorem split_partition_witness :
    (exampleBiased.take 2 ++ exampleBiased.drop 2).Perm exampleBiased ∧
    ∀ x : Instance, x ∈ exampleBiased.take 2 ++ exampleBiased.drop 2 →
      x ∈ exampleBiased :=
  split_partition (1/2) false 0 exampleBiased _ _ (by
    rw [split_ok (1/2) false 0 exampleBiased (by norm_num) (by norm_num)
      (by norm_num [exampleBiased])]
    norm_num [exampleBiased, firstSize]
    exact ⟨rfl, rfl⟩)

end LoanFairness
